import Mathlib

/-! Verification of the page scanner and record decoder of sqlite-repair-go.

The Go sources are shallowly embedded: byte slices become `List Nat`
(each element a byte value below 256), Go's `uint64` becomes `Nat` with
explicit `% 2 ^ 64` where overflow matters, Go's `int64` becomes `Int`
together with explicit two's-complement bit-pattern conversions, and
fallible code returns `Except` / explicit outcome types.  A Go runtime
panic (slice bounds out of range) is modelled as an explicit `panicked`
outcome, since the slicing operation's bounds check is part of the Go
semantics being embedded.
-/

namespace SqliteRepair

/-! Section: Machine-integer helpers (Go conversion semantics) -/

/-- Go's `int8(b)` applied to a byte value `b < 256`: two's-complement
reinterpretation of the low 8 bits. -/
def int8 (b : Nat) : Int :=
  if b < 128 then (b : Int) else (b : Int) - 256

/-- The 64-bit two's-complement bit pattern of a Go `int64` value. -/
def int64bits (i : Int) : Nat :=
  (i % ((2 : Int) ^ 64)).toNat

/-- Reinterpret a 64-bit pattern (a `Nat` below `2 ^ 64`) as a Go `int64`. -/
def int64ofBits (n : Nat) : Int :=
  if n < 2 ^ 63 then (n : Int) else (n : Int) - 2 ^ 64

/-- Reinterpret a 16-bit pattern as a Go `int16` (used via `int64(int16(...))`). -/
def int16ofBits (n : Nat) : Int :=
  if n < 2 ^ 15 then (n : Int) else (n : Int) - 2 ^ 16

/-- Reinterpret a 32-bit pattern as a Go `int32` (used via `int64(int32(...))`). -/
def int32ofBits (n : Nat) : Int :=
  if n < 2 ^ 31 then (n : Int) else (n : Int) - 2 ^ 32

/-- Go stdlib `binary.BigEndian.Uint16`: big-endian read of the first two
bytes of a slice. -/
def beUint16 (b : List Nat) : Nat :=
  256 * b.getD 0 0 + b.getD 1 0

/-- Go stdlib `binary.BigEndian.Uint32`: big-endian read of the first four
bytes of a slice. -/
def beUint32 (b : List Nat) : Nat :=
  256 * (256 * (256 * b.getD 0 0 + b.getD 1 0) + b.getD 2 0) + b.getD 3 0

/-- Go stdlib `binary.BigEndian.Uint64`: big-endian read of the first eight
bytes of a slice. -/
def beUint64 (b : List Nat) : Nat :=
  256 * (256 * (256 * (256 * (256 * (256 * (256 * b.getD 0 0 + b.getD 1 0) +
    b.getD 2 0) + b.getD 3 0) + b.getD 4 0) + b.getD 5 0) + b.getD 6 0) + b.getD 7 0

/-- Go slice expression `xs[lo:hi]` on a slice whose capacity equals its
length: yields the sub-slice, or `none` when the bounds are invalid
(`lo > hi` or `hi > len`), which at runtime is a panic. -/
def goSlice (xs : List Nat) (lo hi : Nat) : Option (List Nat) :=
  if lo ≤ hi ∧ hi ≤ xs.length then some ((xs.take hi).drop lo) else none

/-- Go slice expression `xs[lo:hi]` with `int` (possibly negative) bounds. -/
def goSliceI (xs : List Nat) (lo hi : Int) : Option (List Nat) :=
  if 0 ≤ lo ∧ lo ≤ hi ∧ hi ≤ (xs.length : Int) then
    some ((xs.take hi.toNat).drop lo.toNat)
  else none

/-! Section: readVarint (src/repair/utils.go lines 10-26)

The Go loop `for i := 0; i < 9; i++` is embedded with a structural fuel
argument maintaining `fuel = 9 - i`, so that the function reduces in the
kernel.  Each iteration: if `i >= len(buf)` return `(0, 0)`; otherwise
accumulate `v = (v << 7) | (b & 0x7f)` and return `(v, i+1)` when the
continuation bit is clear.  After the loop (`i = 9`): return `(v, 9)`
when `len(buf) >= 9`, else `(0, 0)`. -/

def readVarintLoop (buf : List Nat) : Nat → Nat → Nat → Nat × Nat
  | 0, _, v => if 9 ≤ buf.length then (v, 9) else (0, 0)
  | fuel + 1, i, v =>
    if h : i < buf.length then
      let b := buf.get ⟨i, h⟩
      let v2 := ((v <<< 7) ||| (b &&& 127)) % 2 ^ 64
      if b < 128 then (v2, i + 1) else readVarintLoop buf fuel (i + 1) v2
    else (0, 0)

/-- `readVarint(buf)` from src/repair/utils.go: returns `(value, width)`. -/
def readVarint (buf : List Nat) : Nat × Nat :=
  readVarintLoop buf 9 0 0

/-! Section: parseSerialType (src/repair/utils.go lines 62-130) -/

/-- A decoded SQLite value (`interface{}` in the Go source).  A float is
carried as its IEEE-754 binary64 bit pattern (the Go source produces it
with `math.Float64frombits` of the big-endian 64-bit read, a bijection on
bit patterns); text is carried as its raw bytes (Go `string(buf[:n])`). -/
inductive Value where
  | null
  | int (i : Int)
  | float (bits : Nat)
  | text (bytes : List Nat)
  | blob (bytes : List Nat)
deriving DecidableEq

/-- `parseSerialType(t, buf)` from src/repair/utils.go: dispatch on the
serial-type code, returning the decoded value and its body width, or a
decode error. -/
def parseSerialType (t : Nat) (buf : List Nat) : Except String (Value × Nat) :=
  if t = 0 then .ok (.null, 0)
  else if t = 1 then
    if buf.length < 1 then .error "buffer too short"
    else .ok (.int (int8 (buf.getD 0 0)), 1)
  else if t = 2 then
    if buf.length < 2 then .error "buffer too short"
    else .ok (.int (int16ofBits (beUint16 buf)), 2)
  else if t = 3 then
    if buf.length < 3 then .error "buffer too short"
    else .ok (.int (int64ofBits ((((int64bits (int8 (buf.getD 0 0))) <<< 16) % 2 ^ 64) |||
      ((buf.getD 1 0) <<< 8) ||| (buf.getD 2 0))), 3)
  else if t = 4 then
    if buf.length < 4 then .error "buffer too short"
    else .ok (.int (int32ofBits (beUint32 buf)), 4)
  else if t = 5 then
    if buf.length < 6 then .error "buffer too short"
    else .ok (.int (int64ofBits ((((int64bits (int8 (buf.getD 0 0))) <<< 40) % 2 ^ 64) |||
      ((buf.getD 1 0) <<< 32) ||| (beUint32 (buf.drop 2)))), 6)
  else if t = 6 then
    if buf.length < 8 then .error "buffer too short"
    else .ok (.int (int64ofBits (beUint64 buf)), 8)
  else if t = 7 then
    if buf.length < 8 then .error "buffer too short"
    else .ok (.float (beUint64 buf), 8)
  else if t = 8 then .ok (.int 0, 0)
  else if t = 9 then .ok (.int 1, 0)
  else if 12 ≤ t ∧ t % 2 = 0 then
    let n := (t - 12) / 2
    if buf.length < n then .error "buffer too short for blob"
    else .ok (.blob (buf.take n), n)
  else if 13 ≤ t ∧ t % 2 = 1 then
    let n := (t - 13) / 2
    if buf.length < n then .error "buffer too short for string"
    else .ok (.text (buf.take n), n)
  else .error "unknown serial type"

/-! Section: parseRecord (src/repair/utils.go lines 28-60) -/

/-- Outcome of `parseRecord`: a Go runtime panic, an error return, or the
decoded value vector. -/
inductive RecOutcome where
  | panicked
  | errored (msg : String)
  | ok (values : List Value)
deriving DecidableEq

/-- The header scan of `parseRecord`: `for idx < len(header)` read a
varint at `header[idx:]`, break on width 0, collect the serial-type codes.
Embedded with structural fuel; the loop advances `idx` by at least one per
iteration, so fuel `header.length` covers every iteration the Go loop
performs. -/
def parseTypesLoop (header : List Nat) : Nat → Nat → List Nat
  | 0, _ => []
  | fuel + 1, idx =>
    if idx < header.length then
      let tv := readVarint (header.drop idx)
      if tv.2 = 0 then []
      else tv.1 :: parseTypesLoop header fuel (idx + tv.2)
    else []

/-- The body scan of `parseRecord`: for each serial type in order, decode
one value from `body[bodyIdx:]` and advance the cursor; an error from any
field fails the record. -/
def parseValuesLoop : List Nat → List Nat → Nat → RecOutcome
  | [], _, _ => .ok []
  | t :: rest, body, bodyIdx =>
    match parseSerialType t (body.drop bodyIdx) with
    | .error e => .errored e
    | .ok (val, n) =>
      match parseValuesLoop rest body (bodyIdx + n) with
      | .ok vs => .ok (val :: vs)
      | r => r

/-- `parseRecord(payload)` from src/repair/utils.go.  The Go source slices
`header := payload[n:headerLen]` after checking only
`int(headerLen) > len(payload)`; when `headerLen < n` that slice
expression has `lo > hi` and panics, which the embedding surfaces as
`RecOutcome.panicked`. -/
def parseRecord (payload : List Nat) : RecOutcome :=
  let hv := readVarint payload
  if hv.2 = 0 ∨ payload.length < hv.1 then .errored "invalid header length"
  else
    match goSlice payload hv.2 hv.1 with
    | none => .panicked
    | some header =>
      let body := payload.drop hv.1
      parseValuesLoop (parseTypesLoop header header.length 0) body 0

/-! Section: Schema model and tryRecoverRow (repair.go, shown in src/README.md) -/

/-- `ColumnInfo` from repair.go: column name, declared type, and the
primary-key flag from `PRAGMA table_info` (1 if PK). -/
structure ColumnInfo where
  name : String
  type : String
  pk : Int
deriving DecidableEq

/-- `TableInfo` from repair.go. -/
structure TableInfo where
  name : String
  columns : List ColumnInfo
deriving DecidableEq

/-- One `outDB.Exec("INSERT OR IGNORE INTO <table> VALUES (...)", ...)`
invocation made by `tryRecoverRow`, recorded as the abstract sink offer
`(tableName, insertValues)`. -/
structure InsertCall where
  table : String
  values : List Value
deriving DecidableEq

/-- The INTEGER-PRIMARY-KEY substitution loop of `tryRecoverRow`:
`for i, col := range table.Columns`, when `col.Pk == 1` and
`strings.ToUpper(col.Type) == "INTEGER"` and `insertValues[i] == nil`,
set `insertValues[i] = int64(rowID)`.  Embedded as a simultaneous walk of
the column list and the (equal-length) value list. -/
def substitutePkLoop (rowID : Int) : List ColumnInfo → List Value → List Value
  | _, [] => []
  | [], vs => vs
  | c :: cs, v :: vs =>
    (if c.pk = 1 ∧ c.type.toUpper = "INTEGER" then
      (if v = Value.null then Value.int rowID else v)
    else v) :: substitutePkLoop rowID cs vs

/-- `tryRecoverRow(rowID, values, tables, outDB)` from repair.go, with the
output database abstracted to a sink `insert(table, values) → Bool`
(`true` iff `outDB.Exec` returned no error).  The returned list is the
trace of sink insert calls the Go function performs, in order. -/
def tryRecoverRow (rowID : Nat) (values : List Value) (tables : List TableInfo)
    (sink : String → List Value → Bool) : List InsertCall :=
  match tables with
  | [] => []
  | t :: rest =>
    if t.columns.length ≠ values.length then tryRecoverRow rowID values rest sink
    else
      let iv := substitutePkLoop (int64ofBits rowID) t.columns values
      if sink t.name iv then [⟨t.name, iv⟩]
      else ⟨t.name, iv⟩ :: tryRecoverRow rowID values rest sink

/-! Section: processPage (repair.go, shown in src/README.md) -/

/-- One row handed to `tryRecoverRow` by the cell loop of `processPage`:
the cell's offset within the page, the decoded rowid and value vector,
and the trace of sink insert calls `tryRecoverRow` made for it. -/
structure RowDispatch where
  offset : Nat
  rowid : Nat
  values : List Value
  calls : List InsertCall
deriving DecidableEq

/-- Result of `processPage`: the row dispatches performed, terminated
either normally (the Go function returns `nil`) or by a runtime panic. -/
inductive PageOutcome where
  | panicked (dispatches : List RowDispatch)
  | ok (dispatches : List RowDispatch)
deriving DecidableEq

/-- The row dispatches a `processPage` run performed. -/
def PageOutcome.dispatches : PageOutcome → List RowDispatch
  | .panicked ds => ds
  | .ok ds => ds

/-- Total number of sink insert calls (Exec invocations) a `processPage`
run performed. -/
def PageOutcome.execCalls (o : PageOutcome) : Nat :=
  (o.dispatches.map (fun d => d.calls.length)).sum

/-- The cell loop of `processPage`: `for i := 0; i < int(numCells); i++`,
embedded with structural fuel maintaining `fuel = numCells - i`.  Each
iteration mirrors repair.go: break when the pointer slot would extend past
the page end; skip cells whose offset is at or past the page end; decode
the two varints, skip on width 0; skip when
`int(payloadSize) > len(cell) - totalHeaderSize` (overflow); slice the
payload; parse the record, skip on error; dispatch to `tryRecoverRow`. -/
def cellLoop (pageData : List Nat) (headerOffset : Nat) (tables : List TableInfo)
    (sink : String → List Value → Bool) : Nat → Nat → List RowDispatch → PageOutcome
  | 0, _, acc => .ok acc
  | fuel + 1, i, acc =>
    let ptrOffset := headerOffset + 8 + i * 2
    if pageData.length < ptrOffset + 2 then .ok acc
    else
      let cellOffset := beUint16 (pageData.drop ptrOffset)
      if pageData.length ≤ cellOffset then
        cellLoop pageData headerOffset tables sink fuel (i + 1) acc
      else
        let cell := pageData.drop cellOffset
        let pv := readVarint cell
        if pv.2 = 0 then cellLoop pageData headerOffset tables sink fuel (i + 1) acc
        else
          let rv := readVarint (cell.drop pv.2)
          if rv.2 = 0 then cellLoop pageData headerOffset tables sink fuel (i + 1) acc
          else
            let totalHeaderSize := pv.2 + rv.2
            if (cell.length : Int) - (totalHeaderSize : Int) < int64ofBits pv.1 then
              cellLoop pageData headerOffset tables sink fuel (i + 1) acc
            else
              match goSliceI cell (totalHeaderSize : Int)
                  ((totalHeaderSize : Int) + int64ofBits pv.1) with
              | none => .panicked acc
              | some payload =>
                match parseRecord payload with
                | .panicked => .panicked acc
                | .errored _ => cellLoop pageData headerOffset tables sink fuel (i + 1) acc
                | .ok values =>
                  cellLoop pageData headerOffset tables sink fuel (i + 1)
                    (acc ++ [⟨cellOffset, rv.1, values, tryRecoverRow rv.1 values tables sink⟩])

/-- `processPage(pageData, pageIndex, tables, outDB)` from repair.go.
The header offset is 100 on page 0 (database header) and 0 otherwise; a
page whose type byte is not 0x0D is skipped.  The cell count is read
big-endian from bytes `headerOffset+3 .. headerOffset+5`; that slice
expression panics when the page is shorter than `headerOffset + 5`. -/
def processPage (pageData : List Nat) (pageIndex : Nat) (tables : List TableInfo)
    (sink : String → List Value → Bool) : PageOutcome :=
  let headerOffset := if pageIndex = 0 then 100 else 0
  if pageData.length ≤ headerOffset then .ok []
  else if pageData.getD headerOffset 0 ≠ 13 then .ok []
  else if pageData.length < headerOffset + 5 then .panicked []
  else
    let numCells := beUint16 (pageData.drop (headerOffset + 3))
    cellLoop pageData headerOffset tables sink numCells 0 []

/-! Section: Specification-side definitions

These definitions follow the words of the specification (spec.md §3, §4.2,
§4.5) rather than the Go source; the conformance theorems below compare
the source embeddings against them. -/

/-- Big-endian unsigned reading of a byte list (spec wording: bytes are
read big-endian, most-significant first). -/
def beNat (bytes : List Nat) : Nat :=
  bytes.foldl (fun acc b => acc * 256 + b) 0

/-- Two's-complement interpretation of a `w`-byte big-endian pattern, the
spec's "signed `8*w`-bit integer, big-endian, sign-extended". -/
def twosComp (w : Nat) (n : Nat) : Int :=
  if n < 2 ^ (8 * w - 1) then (n : Int) else (n : Int) - 2 ^ (8 * w)

/-- The spec's "big-endian signed integer of `w` bytes" read from the
start of a buffer. -/
def beSigned (w : Nat) (buf : List Nat) : Int :=
  twosComp w (beNat (buf.take w))

/-- Body width required by a serial-type code per the table in spec.md §3;
`none` for the reserved codes 10 and 11. -/
def serialWidth (t : Nat) : Option Nat :=
  if t = 0 then some 0
  else if t = 1 then some 1
  else if t = 2 then some 2
  else if t = 3 then some 3
  else if t = 4 then some 4
  else if t = 5 then some 6
  else if t = 6 then some 8
  else if t = 7 then some 8
  else if t = 8 then some 0
  else if t = 9 then some 0
  else if 12 ≤ t then some ((t - 12) / 2)
  else none

/-- The value the table in spec.md §3 prescribes for a serial-type code
applied to a (sufficiently long) buffer. -/
def specValue (t : Nat) (buf : List Nat) : Value :=
  if t = 0 then .null
  else if t = 1 then .int (beSigned 1 buf)
  else if t = 2 then .int (beSigned 2 buf)
  else if t = 3 then .int (beSigned 3 buf)
  else if t = 4 then .int (beSigned 4 buf)
  else if t = 5 then .int (beSigned 6 buf)
  else if t = 6 then .int (beSigned 8 buf)
  else if t = 7 then .float (beNat (buf.take 8))
  else if t = 8 then .int 0
  else if t = 9 then .int 1
  else if t % 2 = 0 then .blob (buf.take ((t - 12) / 2))
  else .text (buf.take ((t - 13) / 2))

/-- Whether a `parseSerialType` result is a decode error. -/
def isDecodeError (r : Except String (Value × Nat)) : Bool :=
  match r with
  | .error _ => true
  | .ok _ => false

/-- The insert-values vector as described by spec.md §4.5: copy `values`,
substituting the rowid (as a signed 64-bit integer) for every value that
is null at a column whose primary-key flag is set and whose declared type
is case-insensitively "INTEGER". -/
def insertVector (rowID : Nat) (cols : List ColumnInfo) (values : List Value) : List Value :=
  List.zipWith
    (fun c v =>
      if c.pk = 1 ∧ c.type.toUpper = "INTEGER" ∧ v = Value.null then
        Value.int (int64ofBits rowID)
      else v)
    cols values

/-- The sink offer a candidate schema receives for a row (spec.md §4.5). -/
def candidateCall (rowID : Nat) (values : List Value) (t : TableInfo) : InsertCall :=
  ⟨t.name, insertVector rowID t.columns values⟩

/-- The row-dispatch policy in the words of spec.md §4.5: restrict to the
schemas of matching column count, in the order supplied; offer the row to
each candidate in turn while the sink reports failure; stop after the
first success; drop the row silently when no candidate succeeds.  The
result is the trace of sink offers. -/
def tryRecoverRowSpec (rowID : Nat) (values : List Value) (tables : List TableInfo)
    (sink : String → List Value → Bool) : List InsertCall :=
  let cands := tables.filter (fun t => t.columns.length = values.length)
  let failing := fun t : TableInfo =>
    !(sink (candidateCall rowID values t).table (candidateCall rowID values t).values)
  (cands.takeWhile failing).map (candidateCall rowID values) ++
    (match cands.dropWhile failing with
     | [] => []
     | t :: _ => [candidateCall rowID values t])

/-! Section: Claim theorems -/

/-- C1: the spec requires a 9-byte varint's 9th byte to contribute all 8
of its bits, with `[0x80 ×8, 0xFF]` decoding to value 0xFF at width 9.
The source instead folds the 9th byte through the same
`v = (v << 7) | (b & 0x7f)` step as the first eight, so the decoded value
is 0x7F: the width is 9 as claimed, but the value drops the 9th byte's
high bit. -/
theorem readVarint_ninth_byte_low7_only :
    readVarint [128, 128, 128, 128, 128, 128, 128, 128, 255] = (127, 9) := rfl

/-- C2: `processPage` is claimed never to panic on any page, index and
schema list, but on this 16-byte page (page index 1) its single cell has
payload `[0x00]`, whose record header length 0 is smaller than the width
1 of its own varint; `parseRecord` then evaluates the Go slice
`payload[1:0]`, a runtime panic that propagates out of `processPage`. -/
theorem processPage_panics_on_short_record_header :
    processPage [13, 0, 0, 0, 1, 0, 0, 0, 0, 12, 0, 0, 1, 1, 0, 0] 1 []
      (fun _ _ => true) = .panicked [] := rfl

/-- C3: `parseRecord` is claimed total (value vector or decode error) over
arbitrary payloads, with payload `[0x00]` — header length 0, varint width
1 — required to produce the decode-error outcome.  The source checks only
`int(headerLen) > len(payload)` before slicing `payload[n:headerLen]`, so
this payload panics instead of erroring. -/
theorem parseRecord_panics_on_short_header :
    parseRecord [0] = .panicked := rfl

/-- C4: `parseSerialType` sign-extends the 24-bit and 48-bit widths from
the most-significant byte: `0xFF 0x00 0x00` is -65536, `0xFF 0xFF 0xFF`
is -1, `0x80 0x00 0x00` is -8388608, and six 0xFF bytes at code 5 are -1,
consuming 3 (resp. 6) bytes. -/
theorem parseSerialType_sign_extends :
    parseSerialType 3 [255, 0, 0] = .ok (.int (-65536), 3)
    ∧ parseSerialType 3 [255, 255, 255] = .ok (.int (-1), 3)
    ∧ parseSerialType 3 [128, 0, 0] = .ok (.int (-8388608), 3)
    ∧ parseSerialType 5 [255, 255, 255, 255, 255, 255] = .ok (.int (-1), 6) :=
  ⟨rfl, rfl, rfl, rfl⟩

/-- C7: serial-type codes 10 and 11 are reserved; `parseSerialType`
returns a decode error on them for every buffer, regardless of its
contents or length. -/
theorem parseSerialType_reserved_codes_error (buf : List Nat) :
    parseSerialType 10 buf = .error "unknown serial type"
    ∧ parseSerialType 11 buf = .error "unknown serial type" :=
  ⟨rfl, rfl⟩

/-- C9: any page whose byte at `headerOffset` (100 on page 0, else 0) is
not 0x0D — in particular an all-zero page — yields zero sink insert calls
and no error from `processPage`. -/
theorem processPage_nonleaf_no_calls (pageData : List Nat) (pageIndex : Nat)
    (tables : List TableInfo) (sink : String → List Value → Bool)
    (h1 : (if pageIndex = 0 then 100 else 0) < pageData.length)
    (h2 : pageData.getD (if pageIndex = 0 then 100 else 0) 0 ≠ 13) :
    processPage pageData pageIndex tables sink = .ok [] := by
  unfold processPage
  simp only
  rw [if_neg (by omega), if_pos h2]

/-- Witness for C9: an all-zero two-byte page at index 1 has byte 0 equal
to 0, not 0x0D, and produces no sink calls and no error. -/
theorem processPage_nonleaf_no_calls_witness :
    processPage [0, 0] 1 [] (fun _ _ => true) = .ok [] :=
  processPage_nonleaf_no_calls [0, 0] 1 [] (fun _ _ => true) (by decide) (by decide)

/-! Subsection: Helper lemmas about the readVarint loop -/

theorem getD_eq_get_of_lt (buf : List Nat) (j : Nat) (h : j < buf.length) :
    buf.getD j 0 = buf.get ⟨j, h⟩ := by
  simp [List.getD_eq_getElem?_getD, List.getElem?_eq_getElem h, List.get_eq_getElem]

theorem readVarintLoop_width_zero (buf : List Nat) :
    ∀ fuel i v, i + fuel = 9 →
      ((readVarintLoop buf fuel i v).2 = 0 ↔
        (buf.length < 9 ∧ ∀ j, i ≤ j → j < buf.length → 128 ≤ buf.getD j 0)) := by
  intro fuel
  induction fuel with
  | zero =>
    intro i v hi
    simp only [readVarintLoop]
    split
    · constructor
      · intro hw; simp at hw
      · rintro ⟨h1, _⟩; omega
    · constructor
      · intro _; exact ⟨by omega, fun j h1 h2 => by omega⟩
      · intro _; rfl
  | succ fuel ih =>
    intro i v hi
    simp only [readVarintLoop]
    by_cases h : i < buf.length
    · rw [dif_pos h]
      by_cases hb : buf.get ⟨i, h⟩ < 128
      · rw [if_pos hb]
        constructor
        · intro hw; simp at hw
        · rintro ⟨h9, hall⟩
          exfalso
          have hh := hall i le_rfl h
          rw [getD_eq_get_of_lt buf i h] at hh
          omega
      · rw [if_neg hb]
        rw [ih (i + 1) _ (by omega)]
        constructor
        · rintro ⟨h9, hall⟩
          refine ⟨h9, fun j h1 h2 => ?_⟩
          rcases Nat.eq_or_lt_of_le h1 with heq | hlt
          · subst heq
            rw [getD_eq_get_of_lt buf i h]
            omega
          · exact hall j hlt h2
        · rintro ⟨h9, hall⟩
          exact ⟨h9, fun j h1 h2 => hall j (by omega) h2⟩
    · rw [dif_neg h]
      constructor
      · intro _
        exact ⟨by omega, fun j h1 h2 => by omega⟩
      · intro _; rfl

theorem readVarintLoop_width_le (buf : List Nat) :
    ∀ fuel i v, i + fuel = 9 → (readVarintLoop buf fuel i v).2 ≤ 9 := by
  intro fuel
  induction fuel with
  | zero =>
    intro i v hi
    simp only [readVarintLoop]
    split <;> simp
  | succ fuel ih =>
    intro i v hi
    simp only [readVarintLoop]
    by_cases h : i < buf.length
    · rw [dif_pos h]
      by_cases hb : buf.get ⟨i, h⟩ < 128
      · rw [if_pos hb]; simp; omega
      · rw [if_neg hb]; exact ih (i + 1) _ (by omega)
    · rw [dif_neg h]; simp

theorem readVarintLoop_nine (buf : List Nat) :
    ∀ fuel i v, i + fuel = 9 → 9 ≤ buf.length →
      (∀ j, i ≤ j → j < 8 → 128 ≤ buf.getD j 0) →
      (readVarintLoop buf fuel i v).2 = 9 := by
  intro fuel
  induction fuel with
  | zero =>
    intro i v hi hlen _
    simp only [readVarintLoop]
    rw [if_pos hlen]
  | succ fuel ih =>
    intro i v hi hlen hall
    have h : i < buf.length := by omega
    simp only [readVarintLoop]
    rw [dif_pos h]
    by_cases hi8 : i < 8
    · have hh := hall i le_rfl hi8
      rw [getD_eq_get_of_lt buf i h] at hh
      rw [if_neg (by omega)]
      exact ih (i + 1) _ (by omega) hlen (fun j h1 h2 => hall j (by omega) h2)
    · -- i = 8: either the byte terminates the varint at width 9 or the
      -- loop exhausts its fuel and returns width 9 since the buffer is
      -- long enough.
      have hi8' : i = 8 := by omega
      by_cases hb : buf.get ⟨i, h⟩ < 128
      · rw [if_pos hb]; omega
      · rw [if_neg hb]
        have hfuel : fuel = 0 := by omega
        subst hfuel
        simp only [readVarintLoop]
        rw [if_pos hlen]

/-- C8: `readVarint` returns width 0 exactly when the buffer is empty or
every byte has the high bit set while the length is below 9; a buffer of
length at least 9 always succeeds with width between 1 and 9; and a full
9-byte varint (eight continuation bytes) succeeds with width 9 regardless
of the high bit of byte 8. -/
theorem readVarint_width_characterization (buf : List Nat) (hb : ∀ b ∈ buf, b < 256) :
    ((readVarint buf).2 = 0 ↔ (buf.length < 9 ∧ ∀ b ∈ buf, 128 ≤ b))
    ∧ (9 ≤ buf.length → 1 ≤ (readVarint buf).2 ∧ (readVarint buf).2 ≤ 9)
    ∧ (9 ≤ buf.length → (∀ j, j < 8 → 128 ≤ buf.getD j 0) → (readVarint buf).2 = 9) := by
  have hzero := readVarintLoop_width_zero buf 9 0 0 rfl
  have hmem : (∀ j, 0 ≤ j → j < buf.length → 128 ≤ buf.getD j 0) ↔ ∀ b ∈ buf, 128 ≤ b := by
    constructor
    · intro h b hbm
      obtain ⟨n, hn, rfl⟩ := List.mem_iff_getElem.mp hbm
      have := h n (Nat.zero_le n) hn
      rwa [getD_eq_get_of_lt buf n hn, List.get_eq_getElem] at this
    · intro h j _ hj
      rw [getD_eq_get_of_lt buf j hj]
      exact h _ (List.get_mem buf j hj)
  refine ⟨?_, ?_, ?_⟩
  · rw [readVarint, hzero, hmem]
  · intro hlen
    constructor
    · have : ¬ (readVarint buf).2 = 0 := by
        rw [readVarint, hzero]
        rintro ⟨h1, _⟩; omega
      omega
    · exact readVarintLoop_width_le buf 9 0 0 rfl
  · intro hlen hall
    exact readVarintLoop_nine buf 9 0 0 rfl hlen (fun j _ h2 => hall j h2)

/-- Witness for C8: the three-byte all-continuation buffer `[0x80 ×3]` is
a byte slice shorter than 9 whose bytes all have the high bit set, and
`readVarint` returns width 0 on it. -/
theorem readVarint_width_characterization_witness :
    (readVarint [128, 128, 128]).2 = 0 :=
  ((readVarint_width_characterization [128, 128, 128] (by decide)).1).mpr
    ⟨by decide, by decide⟩

/-! Subsection: Helper lemmas about the cell loop -/

theorem tryRecoverRow_length_le (rowID : Nat) (values : List Value)
    (tables : List TableInfo) (sink : String → List Value → Bool) :
    (tryRecoverRow rowID values tables sink).length ≤ tables.length := by
  induction tables with
  | nil => simp [tryRecoverRow]
  | cons t rest ih =>
    simp only [tryRecoverRow]
    by_cases h : t.columns.length ≠ values.length
    · rw [if_pos h]
      exact le_trans ih (by simp)
    · rw [if_neg h]
      by_cases hs : sink t.name (substitutePkLoop (int64ofBits rowID) t.columns values)
      · rw [if_pos hs]; simp
      · rw [if_neg hs]
        simp only [List.length_cons]
        omega

theorem cellLoop_dispatches_le (pageData : List Nat) (headerOffset : Nat)
    (tables : List TableInfo) (sink : String → List Value → Bool) :
    ∀ fuel i acc,
      ((cellLoop pageData headerOffset tables sink fuel i acc).dispatches).length ≤
        acc.length + ((pageData.length - headerOffset - 8) / 2 - i) := by
  intro fuel
  induction fuel with
  | zero =>
    intro i acc
    simp [cellLoop, PageOutcome.dispatches]
  | succ fuel ih =>
    intro i acc
    simp only [cellLoop]
    by_cases hbrk : pageData.length < headerOffset + 8 + i * 2 + 2
    · rw [if_pos hbrk]
      simp [PageOutcome.dispatches]
    · rw [if_neg hbrk]
      by_cases h1 : pageData.length ≤ beUint16 (pageData.drop (headerOffset + 8 + i * 2))
      · rw [if_pos h1]
        have hrec := ih (i + 1) acc
        omega
      · rw [if_neg h1]
        by_cases h2 : (readVarint (pageData.drop (beUint16 (pageData.drop (headerOffset + 8 + i * 2))))).2 = 0
        · rw [if_pos h2]
          have hrec := ih (i + 1) acc
          omega
        · rw [if_neg h2]
          by_cases h3 : (readVarint ((pageData.drop (beUint16 (pageData.drop (headerOffset + 8 + i * 2)))).drop (readVarint (pageData.drop (beUint16 (pageData.drop (headerOffset + 8 + i * 2))))).2)).2 = 0
          · rw [if_pos h3]
            have hrec := ih (i + 1) acc
            omega
          · rw [if_neg h3]
            split
            · have hrec := ih (i + 1) acc
              omega
            · split
              · simp only [PageOutcome.dispatches]
                omega
              · split
                · simp only [PageOutcome.dispatches]
                  omega
                · have hrec := ih (i + 1) acc
                  omega
                · refine le_trans (ih (i + 1) _) ?_
                  simp only [List.length_append, List.length_cons, List.length_nil]
                  omega

theorem cellLoop_dispatches_inv (pageData : List Nat) (headerOffset : Nat)
    (tables : List TableInfo) (sink : String → List Value → Bool) :
    ∀ fuel i acc,
      (∀ d ∈ acc, d.offset < pageData.length ∧ d.calls.length ≤ tables.length) →
      ∀ d ∈ (cellLoop pageData headerOffset tables sink fuel i acc).dispatches,
        d.offset < pageData.length ∧ d.calls.length ≤ tables.length := by
  intro fuel
  induction fuel with
  | zero =>
    intro i acc hacc
    simpa [cellLoop, PageOutcome.dispatches] using hacc
  | succ fuel ih =>
    intro i acc hacc
    simp only [cellLoop]
    by_cases hbrk : pageData.length < headerOffset + 8 + i * 2 + 2
    · rw [if_pos hbrk]
      simpa [PageOutcome.dispatches] using hacc
    · rw [if_neg hbrk]
      by_cases h1 : pageData.length ≤ beUint16 (pageData.drop (headerOffset + 8 + i * 2))
      · rw [if_pos h1]
        exact ih (i + 1) acc hacc
      · rw [if_neg h1]
        by_cases h2 : (readVarint (pageData.drop (beUint16 (pageData.drop (headerOffset + 8 + i * 2))))).2 = 0
        · rw [if_pos h2]
          exact ih (i + 1) acc hacc
        · rw [if_neg h2]
          by_cases h3 : (readVarint ((pageData.drop (beUint16 (pageData.drop (headerOffset + 8 + i * 2)))).drop (readVarint (pageData.drop (beUint16 (pageData.drop (headerOffset + 8 + i * 2))))).2)).2 = 0
          · rw [if_pos h3]
            exact ih (i + 1) acc hacc
          · rw [if_neg h3]
            split
            · exact ih (i + 1) acc hacc
            · split
              · simpa [PageOutcome.dispatches] using hacc
              · split
                · simpa [PageOutcome.dispatches] using hacc
                · exact ih (i + 1) acc hacc
                · refine ih (i + 1) _ ?_
                  intro d hd
                  rcases List.mem_append.mp hd with hmem | hmem
                  · exact hacc d hmem
                  · rcases List.mem_singleton.mp hmem with rfl
                    refine ⟨?_, tryRecoverRow_length_le _ _ _ _⟩
                    show beUint16 (pageData.drop (headerOffset + 8 + i * 2)) < pageData.length
                    omega

/-- C10 (amended): the cell loop of `processPage` dispatches at most
`floor((PageSize - 8) / 2)` cells to the row dispatcher — the pointer
slot check breaks the loop once a slot would extend past the page end —
and every dispatched cell has its offset strictly inside the page, each
dispatch making at most one sink insert call per schema.  (The claim's
bound on raw sink insert calls fails: a single cell can be offered to
several same-arity schemas, see the counterexample.) -/
theorem processPage_dispatch_bound (pageData : List Nat) (pageIndex : Nat)
    (tables : List TableInfo) (sink : String → List Value → Bool) :
    ((processPage pageData pageIndex tables sink).dispatches).length ≤
      (pageData.length - 8) / 2
    ∧ ∀ d ∈ (processPage pageData pageIndex tables sink).dispatches,
        d.offset < pageData.length ∧ d.calls.length ≤ tables.length := by
  simp only [processPage]
  generalize (if pageIndex = 0 then 100 else 0) = ho
  constructor
  · split
    · simp [PageOutcome.dispatches]
    · split
      · simp [PageOutcome.dispatches]
      · split
        · simp [PageOutcome.dispatches]
        · refine le_trans (cellLoop_dispatches_le pageData ho tables sink _ 0 []) ?_
          simp only [List.length_nil, Nat.zero_add, Nat.sub_zero]
          exact Nat.div_le_div_right (by omega)
  · split
    · simp [PageOutcome.dispatches]
    · split
      · simp [PageOutcome.dispatches]
      · split
        · simp [PageOutcome.dispatches]
        · exact cellLoop_dispatches_inv pageData ho tables sink _ 0 [] (by simp)

set_option maxRecDepth 10000 in
/-- Counterexample for C10 as stated: on this 512-byte leaf page with a
single valid zero-column cell, offered against 300 empty schemas with a
sink that always fails, `processPage` performs 300 sink insert calls,
exceeding `floor((PageSize - 8) / 2) = 252`. -/
theorem processPage_exec_calls_exceed_capacity :
    (([13, 0, 0, 0, 1, 1, 1, 1, 0, 5] ++ List.replicate 502 0 : List Nat).length = 512)
    ∧ (processPage ([13, 0, 0, 0, 1, 1, 1, 1, 0, 5] ++ List.replicate 502 0) 1
        (List.replicate 300 ⟨"t", []⟩) (fun _ _ => false)).execCalls = 300
    ∧ ((512 : Nat) - 8) / 2 < 300 :=
  ⟨rfl, rfl, by decide⟩

/-! Subsection: Helper lemmas for the row-dispatch refinement -/

theorem substitutePk_eq_insertVector (rowID : Nat) (cols : List ColumnInfo)
    (vs : List Value) (h : cols.length = vs.length) :
    substitutePkLoop (int64ofBits rowID) cols vs = insertVector rowID cols vs := by
  induction cols generalizing vs with
  | nil =>
    cases vs with
    | nil => rfl
    | cons v vs => simp at h
  | cons c cs ih =>
    cases vs with
    | nil => simp at h
    | cons v vs =>
      simp only [substitutePkLoop, insertVector, List.zipWith_cons_cons]
      rw [show List.zipWith _ cs vs = insertVector rowID cs vs from rfl]
      rw [← ih vs (by simpa using h)]
      congr 1
      by_cases h1 : c.pk = 1 ∧ c.type.toUpper = "INTEGER"
      · rw [if_pos h1]
        by_cases h2 : v = Value.null
        · rw [if_pos h2, if_pos ⟨h1.1, h1.2, h2⟩]
        · rw [if_neg h2, if_neg (by tauto)]
      · rw [if_neg h1, if_neg (by tauto)]

/-- C5: `tryRecoverRow` implements the dispatch policy as specified:
schemas are tried in the order supplied; schemas of mismatching column
count are skipped; each candidate is offered the values with the rowid
(reinterpreted as a signed 64-bit integer) substituted for nulls at
INTEGER (case-insensitive) primary-key columns; the iteration stops at
the first successful sink insert, continues past failing ones, and drops
the row silently when every candidate fails. -/
theorem tryRecoverRow_matches_spec (rowID : Nat) (values : List Value)
    (tables : List TableInfo) (sink : String → List Value → Bool) :
    tryRecoverRow rowID values tables sink = tryRecoverRowSpec rowID values tables sink := by
  induction tables with
  | nil => rfl
  | cons t rest ih =>
    simp only [tryRecoverRow]
    by_cases h : t.columns.length ≠ values.length
    · rw [if_pos h, ih]
      simp only [tryRecoverRowSpec]
      rw [List.filter_cons_of_neg (by simpa using h)]
    · rw [if_neg h]
      push_neg at h
      have hiv : substitutePkLoop (int64ofBits rowID) t.columns values =
          insertVector rowID t.columns values :=
        substitutePk_eq_insertVector rowID t.columns values h
      simp only [tryRecoverRowSpec]
      rw [List.filter_cons_of_pos (by simpa using h)]
      by_cases hs : sink t.name (substitutePkLoop (int64ofBits rowID) t.columns values)
      · rw [if_pos hs]
        rw [List.takeWhile_cons_of_neg (by simp [candidateCall, ← hiv, hs]),
          List.dropWhile_cons_of_neg (by simp [candidateCall, ← hiv, hs])]
        simp [candidateCall, ← hiv]
      · rw [if_neg hs]
        rw [List.takeWhile_cons_of_pos (by simp [candidateCall, ← hiv, hs]),
          List.dropWhile_cons_of_pos (by simp [candidateCall, ← hiv, hs])]
        simp only [List.map_cons, List.cons_append]
        rw [ih]
        simp [tryRecoverRowSpec, candidateCall, ← hiv]

/-! Subsection: Bit-level helper lemmas for the serial-type conformance proof -/

theorem lor_mul_pow_add (c a k : Nat) (h : a < 2 ^ k) :
    (c * 2 ^ k) ||| a = c * 2 ^ k + a := by
  apply Nat.eq_of_testBit_eq
  intro i
  rw [Nat.testBit_lor]
  rcases Nat.lt_or_ge i k with hik | hik
  · have hexp : (2 : Nat) ^ k = 2 ^ (k - i) * 2 ^ i := by
      rw [← pow_add]
      congr 1
      omega
    have hdiv : c * 2 ^ k / 2 ^ i = c * 2 ^ (k - i) := by
      rw [hexp, ← Nat.mul_assoc]
      exact Nat.mul_div_cancel _ (Nat.pos_pow_of_pos i (by omega))
    have heven : c * 2 ^ (k - i) % 2 = 0 := by
      rw [show (2 : Nat) ^ (k - i) = 2 ^ (k - i - 1) * 2 by
        rw [← pow_succ]; congr 1; omega]
      rw [← Nat.mul_assoc]
      exact Nat.mul_mod_left _ 2
    have h1 : Nat.testBit (c * 2 ^ k) i = false := by
      rw [Nat.testBit_to_div_mod, hdiv, heven]
      simp
    have h2 : Nat.testBit (c * 2 ^ k + a) i = Nat.testBit a i := by
      rw [Nat.testBit_to_div_mod, Nat.testBit_to_div_mod]
      rw [show c * 2 ^ k = 2 ^ i * (c * 2 ^ (k - i)) by rw [hexp]; ring]
      rw [Nat.mul_add_div (Nat.pos_pow_of_pos i (by omega))]
      rw [show c * 2 ^ (k - i) = 2 * (c * 2 ^ (k - i - 1)) by
        rw [show (2 : Nat) ^ (k - i) = 2 ^ (k - i - 1) * 2 by
          rw [← pow_succ]; congr 1; omega]
        ring]
      rw [Nat.mul_add_mod]
    rw [h1, h2]
    simp
  · have ha : Nat.testBit a i = false :=
      Nat.testBit_lt_two_pow (lt_of_lt_of_le h (Nat.pow_le_pow_right (by omega) hik))
    have hexp : (2 : Nat) ^ i = 2 ^ k * 2 ^ (i - k) := by
      rw [← pow_add]
      congr 1
      omega
    have hdivs : (c * 2 ^ k + a) / 2 ^ i = c * 2 ^ k / 2 ^ i := by
      rw [hexp, ← Nat.div_div_eq_div_mul, ← Nat.div_div_eq_div_mul]
      congr 1
      rw [show c * 2 ^ k = 2 ^ k * c by ring]
      rw [Nat.mul_add_div (Nat.pos_pow_of_pos k (by omega)), Nat.div_eq_of_lt h,
        Nat.mul_div_cancel_left _ (Nat.pos_pow_of_pos k (by omega))]
      omega
    have h2 : Nat.testBit (c * 2 ^ k + a) i = Nat.testBit (c * 2 ^ k) i := by
      rw [Nat.testBit_to_div_mod, Nat.testBit_to_div_mod, hdivs]
    rw [ha, h2]
    simp

theorem int64bits_int8 (b : Nat) (hb : b < 256) :
    int64bits (int8 b) = if b < 128 then b else 2 ^ 64 - 256 + b := by
  unfold int64bits int8
  by_cases hc : b < 128
  · rw [if_pos hc, if_pos hc]
    omega
  · rw [if_neg hc, if_neg hc]
    omega

theorem int64or3 (b0 b1 b2 : Nat) (h0 : b0 < 256) (h1 : b1 < 256) (h2 : b2 < 256) :
    int64ofBits ((((int64bits (int8 b0)) <<< 16) % 2 ^ 64) ||| (b1 <<< 8) ||| b2) =
      twosComp 3 (b0 * 65536 + b1 * 256 + b2) := by
  rw [int64bits_int8 b0 h0, Nat.shiftLeft_eq, Nat.shiftLeft_eq]
  by_cases hc : b0 < 128
  · rw [if_pos hc]
    rw [show b0 * 2 ^ 16 % 2 ^ 64 = b0 * 2 ^ 16 from by omega]
    rw [lor_mul_pow_add b0 (b1 * 2 ^ 8) 16 (by omega)]
    rw [show b0 * 2 ^ 16 + b1 * 2 ^ 8 = (b0 * 2 ^ 8 + b1) * 2 ^ 8 from by omega]
    rw [lor_mul_pow_add (b0 * 2 ^ 8 + b1) b2 8 (by omega)]
    unfold int64ofBits twosComp
    simp only [show 8 * 3 - 1 = 23 from by norm_num, show 8 * 3 = 24 from by norm_num]
    rw [if_pos (by omega), if_pos (by omega)]
    omega
  · rw [if_neg hc]
    rw [show (2 ^ 64 - 256 + b0) * 2 ^ 16 % 2 ^ 64 = (2 ^ 48 - 256 + b0) * 2 ^ 16 from by omega]
    rw [lor_mul_pow_add (2 ^ 48 - 256 + b0) (b1 * 2 ^ 8) 16 (by omega)]
    rw [show (2 ^ 48 - 256 + b0) * 2 ^ 16 + b1 * 2 ^ 8 =
      ((2 ^ 48 - 256 + b0) * 2 ^ 8 + b1) * 2 ^ 8 from by omega]
    rw [lor_mul_pow_add ((2 ^ 48 - 256 + b0) * 2 ^ 8 + b1) b2 8 (by omega)]
    unfold int64ofBits twosComp
    simp only [show 8 * 3 - 1 = 23 from by norm_num, show 8 * 3 = 24 from by norm_num]
    rw [if_neg (by omega), if_neg (by omega)]
    omega

theorem int64or5 (b0 b1 b2 b3 b4 b5 : Nat) (h0 : b0 < 256) (h1 : b1 < 256)
    (h2 : b2 < 256) (h3 : b3 < 256) (h4 : b4 < 256) (h5 : b5 < 256) :
    int64ofBits ((((int64bits (int8 b0)) <<< 40) % 2 ^ 64) ||| (b1 <<< 32) |||
        (256 * (256 * (256 * b2 + b3) + b4) + b5)) =
      twosComp 6 (b0 * 2 ^ 40 + b1 * 2 ^ 32 + b2 * 2 ^ 24 + b3 * 2 ^ 16 + b4 * 2 ^ 8 + b5) := by
  rw [int64bits_int8 b0 h0, Nat.shiftLeft_eq, Nat.shiftLeft_eq]
  by_cases hc : b0 < 128
  · rw [if_pos hc]
    rw [show b0 * 2 ^ 40 % 2 ^ 64 = b0 * 2 ^ 40 from by omega]
    rw [lor_mul_pow_add b0 (b1 * 2 ^ 32) 40 (by omega)]
    rw [show b0 * 2 ^ 40 + b1 * 2 ^ 32 = (b0 * 2 ^ 8 + b1) * 2 ^ 32 from by omega]
    rw [lor_mul_pow_add (b0 * 2 ^ 8 + b1) (256 * (256 * (256 * b2 + b3) + b4) + b5) 32
      (by omega)]
    unfold int64ofBits twosComp
    simp only [show 8 * 6 - 1 = 47 from by norm_num, show 8 * 6 = 48 from by norm_num]
    rw [if_pos (by omega), if_pos (by omega)]
    omega
  · rw [if_neg hc]
    rw [show (2 ^ 64 - 256 + b0) * 2 ^ 40 % 2 ^ 64 = (2 ^ 24 - 256 + b0) * 2 ^ 40 from by omega]
    rw [lor_mul_pow_add (2 ^ 24 - 256 + b0) (b1 * 2 ^ 32) 40 (by omega)]
    rw [show (2 ^ 24 - 256 + b0) * 2 ^ 40 + b1 * 2 ^ 32 =
      ((2 ^ 24 - 256 + b0) * 2 ^ 8 + b1) * 2 ^ 32 from by omega]
    rw [lor_mul_pow_add ((2 ^ 24 - 256 + b0) * 2 ^ 8 + b1)
      (256 * (256 * (256 * b2 + b3) + b4) + b5) 32 (by omega)]
    unfold int64ofBits twosComp
    simp only [show 8 * 6 - 1 = 47 from by norm_num, show 8 * 6 = 48 from by norm_num]
    rw [if_neg (by omega), if_neg (by omega)]
    omega

/-- C6: `parseSerialType` conforms to the serial-type table: code 0 is
null of width 0; codes 1, 2, 3, 4, 5, 6 are big-endian signed integers of
1, 2, 3, 4, 6, 8 bytes; code 7 is an IEEE-754 binary64 from 8 big-endian
bytes; codes 8 and 9 are the integers 0 and 1 of width 0; even codes from
12 are blobs of `(code - 12) / 2` bytes; odd codes from 13 are text of
`(code - 13) / 2` bytes; and a buffer shorter than the required width is
a decode error. -/
theorem parseSerialType_conforms (t : Nat) (buf : List Nat) (w : Nat)
    (hb : ∀ b ∈ buf, b < 256) (hw : serialWidth t = some w) :
    (buf.length < w → isDecodeError (parseSerialType t buf) = true)
    ∧ (w ≤ buf.length → parseSerialType t buf = .ok (specValue t buf, w)) := by
  by_cases h0 : t = 0
  · subst h0
    rw [show serialWidth 0 = some 0 from rfl] at hw
    injection hw with hw
    subst hw
    exact ⟨fun h => by omega, fun _ => rfl⟩
  by_cases h1 : t = 1
  · subst h1
    rw [show serialWidth 1 = some 1 from rfl] at hw
    injection hw with hw
    subst hw
    constructor
    · intro hlen
      simp [parseSerialType, isDecodeError, hlen]
    · intro hwle
      rcases buf with _ | ⟨b0, rest⟩
      · simp at hwle
      · simp [parseSerialType, specValue, beSigned, beNat, int8, twosComp]
  by_cases h2 : t = 2
  · subst h2
    rw [show serialWidth 2 = some 2 from rfl] at hw
    injection hw with hw
    subst hw
    constructor
    · intro hlen
      simp [parseSerialType, isDecodeError, hlen]
    · intro hwle
      rcases buf with _ | ⟨b0, _ | ⟨b1, rest⟩⟩ <;> try simp at hwle
      simp [parseSerialType, specValue, beSigned, beNat]
      rw [if_neg (by omega)]
      simp [beUint16, int16ofBits, twosComp]
      split_ifs <;> omega
  by_cases h3 : t = 3
  · subst h3
    rw [show serialWidth 3 = some 3 from rfl] at hw
    injection hw with hw
    subst hw
    constructor
    · intro hlen
      simp [parseSerialType, isDecodeError, hlen]
    · intro hwle
      rcases buf with _ | ⟨b0, _ | ⟨b1, _ | ⟨b2, rest⟩⟩⟩ <;> try simp at hwle
      have hb0 : b0 < 256 := hb b0 (by simp)
      have hb1 : b1 < 256 := hb b1 (by simp)
      have hb2 : b2 < 256 := hb b2 (by simp)
      simp [parseSerialType, specValue, beSigned, beNat]
      rw [if_neg (by omega)]
      rw [show (18446744073709551616 : Nat) = 2 ^ 64 from by norm_num]
      rw [int64or3 b0 b1 b2 hb0 hb1 hb2]
      rw [show (b0 * 256 + b1) * 256 + b2 = b0 * 65536 + b1 * 256 + b2 from by ring]
  by_cases h4 : t = 4
  · subst h4
    rw [show serialWidth 4 = some 4 from rfl] at hw
    injection hw with hw
    subst hw
    constructor
    · intro hlen
      simp [parseSerialType, isDecodeError, hlen]
    · intro hwle
      rcases buf with _ | ⟨b0, _ | ⟨b1, _ | ⟨b2, _ | ⟨b3, rest⟩⟩⟩⟩ <;> try simp at hwle
      simp [parseSerialType, specValue, beSigned, beNat]
      rw [if_neg (by omega)]
      simp [beUint32, int32ofBits, twosComp]
      split_ifs <;> omega
  by_cases h5 : t = 5
  · subst h5
    rw [show serialWidth 5 = some 6 from rfl] at hw
    injection hw with hw
    subst hw
    constructor
    · intro hlen
      simp [parseSerialType, isDecodeError, hlen]
    · intro hwle
      rcases buf with _ | ⟨b0, _ | ⟨b1, _ | ⟨b2, _ | ⟨b3, _ | ⟨b4, _ | ⟨b5, rest⟩⟩⟩⟩⟩⟩ <;>
        try simp at hwle
      have hb0 : b0 < 256 := hb b0 (by simp)
      have hb1 : b1 < 256 := hb b1 (by simp)
      have hb2 : b2 < 256 := hb b2 (by simp)
      have hb3 : b3 < 256 := hb b3 (by simp)
      have hb4 : b4 < 256 := hb b4 (by simp)
      have hb5 : b5 < 256 := hb b5 (by simp)
      simp [parseSerialType, specValue, beSigned, beNat, beUint32]
      rw [if_neg (by omega)]
      rw [show (18446744073709551616 : Nat) = 2 ^ 64 from by norm_num]
      rw [int64or5 b0 b1 b2 b3 b4 b5 hb0 hb1 hb2 hb3 hb4 hb5]
      rw [show ((((b0 * 256 + b1) * 256 + b2) * 256 + b3) * 256 + b4) * 256 + b5 =
        b0 * 2 ^ 40 + b1 * 2 ^ 32 + b2 * 2 ^ 24 + b3 * 2 ^ 16 + b4 * 2 ^ 8 + b5 from by ring]
  by_cases h6 : t = 6
  · subst h6
    rw [show serialWidth 6 = some 8 from rfl] at hw
    injection hw with hw
    subst hw
    constructor
    · intro hlen
      simp [parseSerialType, isDecodeError, hlen]
    · intro hwle
      rcases buf with
        _ | ⟨b0, _ | ⟨b1, _ | ⟨b2, _ | ⟨b3, _ | ⟨b4, _ | ⟨b5, _ | ⟨b6, _ | ⟨b7, rest⟩⟩⟩⟩⟩⟩⟩⟩ <;>
        try simp at hwle
      simp [parseSerialType, specValue, beSigned, beNat]
      rw [if_neg (by omega)]
      simp [beUint64, int64ofBits, twosComp]
      split_ifs <;> omega
  by_cases h7 : t = 7
  · subst h7
    rw [show serialWidth 7 = some 8 from rfl] at hw
    injection hw with hw
    subst hw
    constructor
    · intro hlen
      simp [parseSerialType, isDecodeError, hlen]
    · intro hwle
      rcases buf with
        _ | ⟨b0, _ | ⟨b1, _ | ⟨b2, _ | ⟨b3, _ | ⟨b4, _ | ⟨b5, _ | ⟨b6, _ | ⟨b7, rest⟩⟩⟩⟩⟩⟩⟩⟩ <;>
        try simp at hwle
      simp [parseSerialType, specValue, beNat]
      rw [if_neg (by omega)]
      simp [beUint64]
      omega
  by_cases h8 : t = 8
  · subst h8
    rw [show serialWidth 8 = some 0 from rfl] at hw
    injection hw with hw
    subst hw
    exact ⟨fun h => by omega, fun _ => rfl⟩
  by_cases h9 : t = 9
  · subst h9
    rw [show serialWidth 9 = some 0 from rfl] at hw
    injection hw with hw
    subst hw
    exact ⟨fun h => by omega, fun _ => rfl⟩
  -- t is none of 0..9
  rw [serialWidth] at hw
  rw [if_neg h0, if_neg h1, if_neg h2, if_neg h3, if_neg h4, if_neg h5, if_neg h6,
    if_neg h7, if_neg h8, if_neg h9] at hw
  by_cases h12 : 12 ≤ t
  · rw [if_pos h12] at hw
    injection hw with hw
    by_cases hpar : t % 2 = 0
    · -- even code: blob
      constructor
      · intro hlen
        rw [parseSerialType]
        rw [if_neg h0, if_neg h1, if_neg h2, if_neg h3, if_neg h4, if_neg h5, if_neg h6,
          if_neg h7, if_neg h8, if_neg h9, if_pos ⟨h12, hpar⟩]
        simp only []
        rw [if_pos (by omega)]
        rfl
      · intro hwle
        rw [parseSerialType]
        rw [if_neg h0, if_neg h1, if_neg h2, if_neg h3, if_neg h4, if_neg h5, if_neg h6,
          if_neg h7, if_neg h8, if_neg h9, if_pos ⟨h12, hpar⟩]
        simp only []
        rw [if_neg (by omega)]
        rw [specValue]
        rw [if_neg h0, if_neg h1, if_neg h2, if_neg h3, if_neg h4, if_neg h5, if_neg h6,
          if_neg h7, if_neg h8, if_neg h9, if_pos hpar]
        rw [← hw]
    · -- odd code: text
      have hpar1 : t % 2 = 1 := by omega
      have h13 : 13 ≤ t := by omega
      have hw13 : (t - 13) / 2 = w := by omega
      constructor
      · intro hlen
        rw [parseSerialType]
        rw [if_neg h0, if_neg h1, if_neg h2, if_neg h3, if_neg h4, if_neg h5, if_neg h6,
          if_neg h7, if_neg h8, if_neg h9, if_neg (by simp [hpar]),
          if_pos ⟨h13, hpar1⟩]
        simp only []
        rw [if_pos (by omega)]
        rfl
      · intro hwle
        rw [parseSerialType]
        rw [if_neg h0, if_neg h1, if_neg h2, if_neg h3, if_neg h4, if_neg h5, if_neg h6,
          if_neg h7, if_neg h8, if_neg h9, if_neg (by simp [hpar]),
          if_pos ⟨h13, hpar1⟩]
        simp only []
        rw [if_neg (by omega)]
        rw [specValue]
        rw [if_neg h0, if_neg h1, if_neg h2, if_neg h3, if_neg h4, if_neg h5, if_neg h6,
          if_neg h7, if_neg h8, if_neg h9, if_neg hpar]
        rw [hw13]
  · rw [if_neg h12] at hw
    exact absurd hw (by simp)

/-- Witness for C6: serial-type code 3 requires width 3, and on the
three-byte buffer `[0xFF, 0x00, 0x00]` (all bytes below 256)
`parseSerialType` succeeds with the table's value and width 3. -/
theorem parseSerialType_conforms_witness :
    parseSerialType 3 [255, 0, 0] = .ok (specValue 3 [255, 0, 0], 3) :=
  (parseSerialType_conforms 3 [255, 0, 0] 3 (by decide) (by decide)).2 (by decide)

end SqliteRepair
